import Mathlib

/-!
Verification of the traffic-flow simulation core (file `MOD_3_Q1.py`).

The embedding models the simulation engine of the repository:
the `Road` / `Vehicle` data model, the two assignment policies
(`optimize_traffic_flow`, Policy A, and `balance_traffic_flow`, Policy B),
the per-vehicle engine process (`vehicle_process`), the arrival generator
(`generate_random_traffic`) and the discrete-event run loop.

Python integers become `Int` (loads, weights, capacities), Python `float`
ratios become `Rat` (every ratio actually reasoned about is exactly
representable), fallible Python code (KeyError, StopIteration,
ZeroDivisionError) returns `Except`.  Randomness (`np.random.*`) is
modelled by explicit oracle streams supplied as input.
-/

namespace TrafficSim

/-- Error outcomes a Python-level run can raise. -/
inductive PyErr where
  | keyError
  | stopIteration
  | zeroDivision
deriving DecidableEq

/-- The `Road` class: `name`, `capacity`, `current_load` (starts at 0) and the
append-only `history` of occupancy ratios.  The presentation-only field
`coordinates` is omitted. -/
structure Road where
  name : String
  capacity : Int
  current_load : Int
  history : List Rat
deriving DecidableEq

/-- Default road used for out-of-range list access. -/
def dRoad : Road := { name := "", capacity := 1, current_load := 0, history := [] }

instance : Inhabited Road := ⟨dRoad⟩

/-- The `Vehicle` class restricted to the simulation-relevant fields
`id`, `weight`, `priority` (the pygame drawing fields are presentation glue). -/
structure Vehicle where
  id : Nat
  weight : Int
  priority : Int
deriving DecidableEq

instance : Inhabited Vehicle := ⟨⟨0, 1, 1⟩⟩

/-- In-place update of the element at position `i` (models mutating one of the
shared `Road` objects held in the roads list). -/
def updateAt {α : Type} (l : List α) (i : Nat) (f : α → α) : List α :=
  match l, i with
  | [], _ => []
  | a :: rest, 0 => f a :: rest
  | a :: rest, n + 1 => a :: updateAt rest n f

/-- Python `dict` assignment `m[k] = v`: overwrite in place if the key exists,
else append. -/
def dictInsert (m : List (Nat × String)) (k : Nat) (v : String) : List (Nat × String) :=
  match m with
  | [] => [(k, v)]
  | (k', v') :: rest => if k' = k then (k, v) :: rest else (k', v') :: dictInsert rest k v

/-- Python `dict` lookup `m[k]`, `none` when the key is absent (KeyError). -/
def dictLookup (m : List (Nat × String)) (k : Nat) : Option String :=
  match m with
  | [] => none
  | (k', v') :: rest => if k' = k then some v' else dictLookup rest k

/-- The load ratio `r.current_load / r.capacity` computed by both policies
(Python true division of ints, i.e. the exact rational quotient; expressed
with `Rat.divInt` so that it evaluates by kernel reduction — see
`ratio_eq_div`). -/
def ratio (r : Road) : Rat := Rat.divInt r.current_load r.capacity

/-- Add `w` to the `current_load` of the road at position `i`
(`road.current_load += w` on a shared object). -/
def addLoad (roads : List Road) (i : Nat) (w : Int) : List Road :=
  updateAt roads i (fun r => { r with current_load := r.current_load + w })

/-- The loop of Python `min(roads, key=lambda r: r.current_load / r.capacity)`:
scan the remaining roads, keeping the index `bi` and key value `br` of the
current best; replace only on a strictly smaller key. -/
def pickMin : List Road → Nat → Nat → Rat → Nat
  | [], _, bi, _ => bi
  | r :: rest, i, bi, br =>
      if ratio r < br then pickMin rest (i + 1) i (ratio r)
      else pickMin rest (i + 1) bi br

/-- Index of `min(roads, key=lambda r: r.current_load / r.capacity)`:
first road achieving the minimal ratio. -/
def bestRoadIdx : List Road → Nat
  | [] => 0
  | r :: rest => pickMin rest 1 0 (ratio r)

/-- One iteration of the vehicle loop of `optimize_traffic_flow`: pick the
least-ratio road, record the assignment, and add the weight (no capacity
check). -/
def optimizeStep (acc : List (Nat × String) × List Road) (v : Vehicle) :
    List (Nat × String) × List Road :=
  let i := bestRoadIdx acc.2
  (dictInsert acc.1 v.id ((acc.2.getD i dRoad).name), addLoad acc.2 i v.weight)

/-- Policy A, `optimize_traffic_flow(roads, vehicles)`: greedy least-loaded
ratio, mutating `current_load` as it assigns.  Returns the assignments dict
together with the mutated roads list. -/
def optimize_traffic_flow (roads : List Road) (vehicles : List Vehicle) :
    List (Nat × String) × List Road :=
  vehicles.foldl optimizeStep ([], roads)

/-- Stable insertion (by ratio key over road indices) used to model Python's
stable `sorted`: `i` is placed after every already-present index of
key `≤` its own. -/
def insertByKey (key : Nat → Rat) (i : Nat) : List Nat → List Nat
  | [] => [i]
  | j :: rest => if key i < key j then i :: j :: rest else j :: insertByKey key i rest

/-- Indices `0..len-1` stably sorted by the supplied key (models
`sorted(roads, key=lambda road: road.current_load / road.capacity)`:
the sorted list aliases the same road objects, here represented by their
positions in the original list; keys are computed once, at sort time). -/
def sortedIdx (roads : List Road) : List Nat :=
  (List.range roads.length).foldl (fun acc i => insertByKey (fun j => ratio (roads.getD j dRoad)) i acc) []

/-- Inner scan of `balance_traffic_flow`: first road (in sorted order) with
`road.current_load + w <= road.capacity`, against the current loads. -/
def firstFit (roads : List Road) (order : List Nat) (w : Int) : Option Nat :=
  order.find? (fun i => decide ((roads.getD i dRoad).current_load + w ≤ (roads.getD i dRoad).capacity))

/-- One iteration of the vehicle loop of `balance_traffic_flow`: scan the
pre-sorted road order for the first fit; if none, the vehicle gets no
assignment entry (silent fall-through of the inner `for`). -/
def balanceStep (order : List Nat) (acc : List (Nat × String) × List Road) (v : Vehicle) :
    List (Nat × String) × List Road :=
  match firstFit acc.2 order v.weight with
  | none => acc
  | some i => (dictInsert acc.1 v.id ((acc.2.getD i dRoad).name), addLoad acc.2 i v.weight)

/-- Policy B, `balance_traffic_flow(roads, vehicles)`: first-fit over the
roads sorted (once) by ascending initial load ratio; capacity-checked;
vehicles with no fitting road are dropped from the assignments dict. -/
def balance_traffic_flow (roads : List Road) (vehicles : List Vehicle) :
    List (Nat × String) × List Road :=
  vehicles.foldl (balanceStep (sortedIdx roads)) ([], roads)

/-- The release step of `vehicle_process` (line 115):
`assigned_road.current_load = max(0, assigned_road.current_load - vehicle.weight)`. -/
def release_load (load w : Int) : Int := max 0 (load - w)

/-- Engine state: the shared roads list, the releases scheduled for the next
tick (`yield env.timeout(1)` suspensions of `vehicle_process`, as pairs of
assigned road index and vehicle weight), plus two ghost per-road counters:
entities ever assigned, and entity processes fully completed (hold+release). -/
structure SimState where
  roads : List Road
  pending : List (Nat × Int)
  assigned : List Nat
  completed : List Nat

instance : Inhabited SimState := ⟨⟨[], [], [], []⟩⟩

/-- Increment the counter at position `i`. -/
def bump (c : List Nat) (i : Nat) : List Nat := updateAt c i (fun n => n + 1)

/-- Method dispatch of `vehicle_process`: `if self.method == "1"` use Policy A,
otherwise Policy B. -/
def applyPolicy (method : String) (roads : List Road) (vehicles : List Vehicle) :
    List (Nat × String) × List Road :=
  if method = "1" then optimize_traffic_flow roads vehicles
  else balance_traffic_flow roads vehicles

/-- `next(road for road in self.roads if road.name == road_name)`: position of
the first road with the given name, `none` meaning `StopIteration`. -/
def findRoadIdx (roads : List Road) (nm : String) : Option Nat :=
  match roads with
  | [] => none
  | r :: rest => if r.name = nm then some 0 else (findRoadIdx rest nm).map (· + 1)

/-- The pre-suspension part of `vehicle_process` (lines 106-113): run the
policy on the single-vehicle batch, look the vehicle up in the returned
assignments dict (`KeyError` when Policy B dropped it), locate the assigned
road by name, and add the weight a second time
(`assigned_road.current_load += vehicle.weight`, line 113, on top of the
addition the policy already performed).  Returns the mutated roads and the
index the release will act on. -/
def vehicle_process_start (method : String) (roads : List Road) (v : Vehicle) :
    Except PyErr (List Road × Nat) :=
  let pr := applyPolicy method roads [v]
  match dictLookup pr.1 v.id with
  | none => Except.error PyErr.keyError
  | some nm =>
    match findRoadIdx pr.2 nm with
    | none => Except.error PyErr.stopIteration
    | some j => Except.ok (addLoad pr.2 j v.weight, j)

/-- Spawn the tick's new arrivals in generation order: each vehicle runs the
pre-suspension part of its process and schedules its release for the next
tick.  An uncaught exception (Policy B drop) aborts the whole run, as an
unhandled exception in a simpy process propagates out of `env.step()`. -/
def doAssigns (method : String) : SimState → List Vehicle → Except PyErr SimState
  | st, [] => Except.ok st
  | st, v :: vs =>
    match vehicle_process_start method st.roads v with
    | Except.error e => Except.error e
    | Except.ok rj =>
        doAssigns method ⟨rj.1, st.pending ++ [(rj.2, v.weight)], bump st.assigned rj.2, st.completed⟩ vs

/-- The post-suspension part of `vehicle_process` (lines 115-116) for one due
process: floor-subtract the weight and append the resulting occupancy ratio
to the road's history. -/
def releaseOne (roads : List Road) (p : Nat × Int) : List Road :=
  updateAt roads p.1 (fun r =>
    let load' := release_load r.current_load p.2
    { r with current_load := load',
             history := r.history ++ [Rat.divInt load' r.capacity] })

/-- One due release together with its ghost completion count. -/
def releaseStep (acc : List Road × List Nat) (p : Nat × Int) : List Road × List Nat :=
  (releaseOne acc.1 p, bump acc.2 p.1)

/-- Resume every process whose one-tick hold is due, in scheduling order. -/
def doReleases (st : SimState) : SimState :=
  let rc := st.pending.foldl releaseStep (st.roads, st.completed)
  ⟨rc.1, [], st.assigned, rc.2⟩

/-- The event order of one simulated hour `t ≥ 1` in the reference run loop:
the generator's timeout fires first (new arrivals are created), then the
hour-`t-1` holds resume and release, then the new arrivals' processes run
and assign.  `runTraceAux` records the state after the release phase and
after the assignment phase of every tick, ending with the final release-only
tick at `t = H` (which the loop condition `env.peek() <= time_window` still
executes). -/
def runTraceAux (method : String) : SimState → List (List Vehicle) → Except PyErr (List SimState)
  | st, [] => Except.ok [doReleases st]
  | st, batch :: rest =>
    let st1 := doReleases st
    match doAssigns method st1 batch with
    | Except.error e => Except.error e
    | Except.ok st2 =>
      match runTraceAux method st2 rest with
      | Except.error e => Except.error e
      | Except.ok tr => Except.ok (st1 :: st2 :: tr)

/-- Roads as built by `start_simulation` / the `Road` constructor: fresh, with
`current_load = 0` and empty history. -/
def initState (defs : List (String × Int)) : SimState :=
  ⟨defs.map (fun p => { name := p.1, capacity := p.2, current_load := 0, history := [] }),
   [], List.replicate defs.length 0, List.replicate defs.length 0⟩

/-- A whole run: arrivals are the per-hour batches (randomness already
resolved), the result is the state trace or the exception that aborted the
run. -/
def runTrace (method : String) (defs : List (String × Int)) (arrivals : List (List Vehicle)) :
    Except PyErr (List SimState) :=
  runTraceAux method (initState defs) arrivals

/-- Final state of a successful run. -/
def finalState (res : Except PyErr (List SimState)) : SimState :=
  match res with
  | Except.error _ => default
  | Except.ok tr => tr.getLast?.getD default

/-- State after the `k`-th recorded phase of a successful run. -/
def traceState (res : Except PyErr (List SimState)) (k : Nat) : SimState :=
  match res with
  | Except.error _ => default
  | Except.ok tr => tr.getD k default

/-- The exception that aborted a run, if any. -/
def runError (res : Except PyErr (List SimState)) : Option PyErr :=
  match res with
  | Except.error e => some e
  | Except.ok _ => none

/-- Python raises `ZeroDivisionError` as soon as `current_load / capacity` is
evaluated on a road of capacity `0`; both policies evaluate the key on every
road of the list (Python `min(roads, key=...)` while iterating, `sorted(roads,
key=...)` before sorting). -/
def checkRatios (roads : List Road) : Except PyErr Unit :=
  if roads.all (fun r => decide (r.capacity ≠ 0)) then Except.ok ()
  else Except.error PyErr.zeroDivision

/-- `optimize_traffic_flow` with Python's error behaviour made explicit: for
each vehicle, `min(roads, key=lambda r: r.current_load / r.capacity)` divides
by every road's capacity before the assignment commits. -/
def optimizeChecked : List Road → List (Nat × String) → List Vehicle →
    Except PyErr (List (Nat × String) × List Road)
  | roads, m, [] => Except.ok (m, roads)
  | roads, m, v :: vs =>
    match checkRatios roads with
    | Except.error e => Except.error e
    | Except.ok _ =>
      let i := bestRoadIdx roads
      optimizeChecked (addLoad roads i v.weight) (dictInsert m v.id ((roads.getD i dRoad).name)) vs

/-- `balance_traffic_flow` with Python's error behaviour made explicit:
`sorted(roads, key=lambda road: road.current_load / road.capacity)` evaluates
the key of every road up front; the first-fit scan itself performs no
division. -/
def balanceChecked (roads : List Road) (vehicles : List Vehicle) :
    Except PyErr (List (Nat × String) × List Road) :=
  match checkRatios roads with
  | Except.error e => Except.error e
  | Except.ok _ => Except.ok (balance_traffic_flow roads vehicles)

/-- The run configuration collected by the GUI (`on_start`, lines 334-343):
the entries are parsed and passed on without any validation. -/
structure RunConfig where
  selected_method : String
  time_window : Int
  peak_hours : Rat × Rat
  vehicle_rate : Int
  road_capacities : Int × Int

/-- `start_simulation` (lines 284-289): unconditionally constructs the two
`Road` objects from the configured capacities and launches the run.  Neither
it nor `on_start` checks the capacities, the horizon or the peak window. -/
def start_simulation_roads (cfg : RunConfig) : List Road :=
  [{ name := "Mandela", capacity := cfg.road_capacities.1, current_load := 0, history := [] },
   { name := "Portmore", capacity := cfg.road_capacities.2, current_load := 0, history := [] }]

/-- Oracles standing for `np.random`: `poisson rate h` is the Poisson draw for
hour `h` at the given rate, and `wIdx` / `pIdx` are the index draws backing
the two `np.random.choice` calls for the vehicle with the given id. -/
structure RandomStream where
  poisson : Nat → Nat → Nat
  wIdx : Nat → Nat
  pIdx : Nat → Nat

/-- `np.random.choice(l)`: a uniformly drawn index selects an element of `l`;
the oracle's raw draw is reduced modulo the list length. -/
def pyChoice (l : List Int) (i : Nat) : Int := l.getD (i % l.length) 0

/-- One iteration of the hour loop of `generate_random_traffic` (lines
119-126): peak test `self.peak_hours[0] <= hour <= self.peak_hours[1]`, rate
`self.vehicle_rate` on peak else `int(self.vehicle_rate / 2)`, one Poisson
draw for the count, and one vehicle per draw with `id=len(self.vehicles)`
(the running counter `startId + k`) and weight / priority drawn by
`np.random.choice`. -/
def genHour (rate : Nat) (peak : Rat × Rat) (rs : RandomStream) (h : Nat) (startId : Nat) :
    List Vehicle :=
  let r := if peak.1 ≤ (h : Rat) ∧ (h : Rat) ≤ peak.2 then rate else rate / 2
  (List.range (rs.poisson r h)).map (fun k =>
    ⟨startId + k, pyChoice [1, 2, 3] (rs.wIdx (startId + k)),
     pyChoice [1, 2, 3, 4, 5] (rs.pIdx (startId + k))⟩)

/-- The hour loop, threading the hour and the `len(self.vehicles)` counter. -/
def genAux (peak : Rat × Rat) (rate : Nat) (rs : RandomStream) :
    Nat → Nat → Nat → List (List Vehicle)
  | 0, _, _ => []
  | n + 1, h, c =>
    let b := genHour rate peak rs h c
    b :: genAux peak rate rs n (h + 1) (c + b.length)

/-- `generate_random_traffic` over `hour in range(self.time_window)`: the
per-hour batches of freshly created vehicles. -/
def generate_random_traffic (time_window : Nat) (peak : Rat × Rat) (rate : Nat)
    (rs : RandomStream) : List (List Vehicle) :=
  genAux peak rate rs time_window 0 0

/-- The spec-side selection criterion of Policy A: `i` is the first position
achieving the minimal load ratio. -/
def IsFirstMin (roads : List Road) (i : Nat) : Prop :=
  i < roads.length
  ∧ (∀ j, j < roads.length → ratio (roads.getD i dRoad) ≤ ratio (roads.getD j dRoad))
  ∧ ∀ j, j < i → ratio (roads.getD i dRoad) < ratio (roads.getD j dRoad)

/-- The bookkeeping invariant of the engine: per road, the recorded history
is exactly the fully completed processes, and completions plus in-flight
holds account for every entity ever assigned to the road. -/
def SimInv (st : SimState) : Prop :=
  st.assigned.length = st.roads.length
  ∧ st.completed.length = st.roads.length
  ∧ ∀ i, i < st.roads.length →
      (st.roads.getD i dRoad).history.length = st.completed.getD i 0
      ∧ st.completed.getD i 0 + st.pending.countP (fun p => decide (p.1 = i))
          = st.assigned.getD i 0

/-- The priority-erased view of a vehicle batch: ids and weights only. -/
def idWeight (vs : List Vehicle) : List (Nat × Int) := vs.map (fun v => (v.id, v.weight))

/-- Two road lists agree on everything except possibly the current loads:
assignment-phase mutations never touch names, capacities or histories. -/
def sameShape (roads roads' : List Road) : Prop :=
  roads'.length = roads.length
  ∧ ∀ i, (roads'.getD i dRoad).name = (roads.getD i dRoad).name
      ∧ (roads'.getD i dRoad).capacity = (roads.getD i dRoad).capacity
      ∧ (roads'.getD i dRoad).history = (roads.getD i dRoad).history

/-- C1: evaluating the code on the claimed scenario (two roads of capacity 10,
one Policy-A vehicle of weight 5) refutes the claim: the weight is added both
by `optimize_traffic_flow` and again by `vehicle_process` line 113, while the
release subtracts it only once, so the first road ends the run with
`history = [0.5]` (not `[0.0]`) and `current_load = 5` (not `0`). -/
theorem C1_run_divergence :
    ((finalState (runTrace "1" [("Mandela", 10), ("Portmore", 10)] [[⟨0, 5, 3⟩]])).roads.getD 0 dRoad).history
        = [mkRat 1 2]
    ∧ ((finalState (runTrace "1" [("Mandela", 10), ("Portmore", 10)] [[⟨0, 5, 3⟩]])).roads.getD 0 dRoad).current_load
        = 5
    ∧ ((finalState (runTrace "1" [("Mandela", 10), ("Portmore", 10)] [[⟨0, 5, 3⟩]])).roads.getD 1 dRoad).history
        = [] := by
  decide

/-- C2: evaluating the code on one Policy-B road of capacity 2 and one vehicle
of weight 2 refutes the claimed invariant `current_load ≤ capacity`: after
`balance_traffic_flow` admits the vehicle (2 ≤ 2) the engine adds the weight a
second time, leaving `current_load = 4 > 2 = capacity` during the hold. -/
theorem C2_run_divergence :
    ((traceState (runTrace "2" [("Mandela", 2)] [[⟨0, 2, 1⟩]]) 1).roads.getD 0 dRoad).current_load = 4
    ∧ ((traceState (runTrace "2" [("Mandela", 2)] [[⟨0, 2, 1⟩]]) 1).roads.getD 0 dRoad).capacity = 2
    ∧ ¬ ((traceState (runTrace "2" [("Mandela", 2)] [[⟨0, 2, 1⟩]]) 1).roads.getD 0 dRoad).current_load
        ≤ ((traceState (runTrace "2" [("Mandela", 2)] [[⟨0, 2, 1⟩]]) 1).roads.getD 0 dRoad).capacity := by
  decide

/-- C3: evaluating the code on a Policy-B vehicle that fits nowhere (capacity
1, weight 2) refutes the claimed silent drop: `balance_traffic_flow` returns an
empty assignments dict, and `vehicle_process` line 111 then raises `KeyError`,
which (being uncaught in a simpy process nobody waits on) propagates out of
`env.step()` and aborts the whole run. -/
theorem C3_run_divergence :
    runError (runTrace "2" [("Mandela", 1)] [[⟨0, 2, 1⟩]]) = some PyErr.keyError := by
  decide

/-- The modelled `ratio` is the ordinary field division of the casts. -/
theorem ratio_eq_div (r : Road) : ratio r = (r.current_load : Rat) / (r.capacity : Rat) := by
  simp [ratio, Rat.divInt_eq_div]

theorem updateAt_length {α : Type} (l : List α) (i : Nat) (f : α → α) :
    (updateAt l i f).length = l.length := by
  induction l generalizing i with
  | nil => rfl
  | cons a rest ih =>
    cases i with
    | zero => rfl
    | succ n => simp [updateAt, ih]

theorem updateAt_out {α : Type} (l : List α) (i : Nat) (f : α → α) (h : l.length ≤ i) :
    updateAt l i f = l := by
  induction l generalizing i with
  | nil => rfl
  | cons a rest ih =>
    cases i with
    | zero => simp at h
    | succ n => simp [updateAt, ih n (by simpa using h)]

theorem mem_updateAt {α : Type} {a : α} {l : List α} {i : Nat} {f : α → α}
    (h : a ∈ updateAt l i f) : a ∈ l ∨ ∃ b, b ∈ l ∧ a = f b := by
  induction l generalizing i with
  | nil => simp [updateAt] at h
  | cons x rest ih =>
    cases i with
    | zero =>
      rcases (by simpa [updateAt] using h : a = f x ∨ a ∈ rest) with h' | h'
      · exact Or.inr ⟨x, by simp, h'⟩
      · exact Or.inl (by simp [h'])
    | succ n =>
      rcases (by simpa [updateAt] using h : a = x ∨ a ∈ updateAt rest n f) with h' | h'
      · exact Or.inl (by simp [h'])
      · rcases ih h' with h'' | ⟨b, hb, hab⟩
        · exact Or.inl (by simp [h''])
        · exact Or.inr ⟨b, by simp [hb], hab⟩

theorem getD_updateAt_self {α : Type} (l : List α) (i : Nat) (f : α → α) (d : α)
    (h : i < l.length) : (updateAt l i f).getD i d = f (l.getD i d) := by
  induction l generalizing i with
  | nil => simp at h
  | cons x rest ih =>
    cases i with
    | zero => rfl
    | succ n => simpa [updateAt] using ih n (by simpa using h)

theorem getD_updateAt_ne {α : Type} (l : List α) (i j : Nat) (f : α → α) (d : α)
    (h : j ≠ i) : (updateAt l i f).getD j d = l.getD j d := by
  induction l generalizing i j with
  | nil => rfl
  | cons x rest ih =>
    cases i with
    | zero =>
      cases j with
      | zero => exact absurd rfl h
      | succ m => rfl
    | succ n =>
      cases j with
      | zero => rfl
      | succ m => simpa [updateAt] using ih n m (fun hh => h (by omega))

/-- `addLoad` keeps every road's capacity (it only mutates `current_load`). -/
theorem capacity_mem_addLoad {r : Road} {roads : List Road} {i : Nat} {w : Int}
    (h : r ∈ addLoad roads i w) : ∃ b ∈ roads, r.capacity = b.capacity := by
  rcases mem_updateAt h with h' | ⟨b, hb, hr⟩
  · exact ⟨r, h', rfl⟩
  · exact ⟨b, hb, by simp [hr]⟩

/-- C6: the release step sets the load to `max(0, load - weight)`: it
subtracts exactly the weight when the result stays non-negative, is floored
at `0` otherwise, and a double release can never drive the load negative. -/
theorem C6_release_floor :
    (∀ load w : Int, w ≤ load → release_load load w = load - w)
    ∧ (∀ load w : Int, load - w < 0 → release_load load w = 0)
    ∧ (∀ load w w' : Int, 0 ≤ release_load (release_load load w) w') := by
  refine ⟨fun load w h => ?_, fun load w h => ?_, fun load w w' => ?_⟩
  · simp only [release_load]
    omega
  · simp only [release_load]
    omega
  · simp only [release_load]
    omega

/-- Witness for C6 at concrete inputs. -/
theorem C6_release_floor_witness :
    release_load 5 3 = 2 ∧ release_load 2 5 = 0
    ∧ 0 ≤ release_load (release_load 7 4) 4 := by
  refine ⟨?_, ?_, C6_release_floor.2.2 7 4 4⟩
  · simpa using C6_release_floor.1 5 3 (by decide)
  · simpa using C6_release_floor.2.1 2 5 (by decide)

/-- C4, counterexample: the configuration with a zero first capacity is not
rejected — `start_simulation` creates both `Road` objects from it, and the
first time Policy A then touches the roads the zero capacity surfaces as a
mid-run `ZeroDivisionError`. -/
theorem C4_counterexample :
    (start_simulation_roads ⟨"1", 24, (6, 8), 20, (0, 800)⟩).length = 2
    ∧ ((start_simulation_roads ⟨"1", 24, (6, 8), 20, (0, 800)⟩).getD 0 dRoad).capacity = 0
    ∧ optimizeChecked (start_simulation_roads ⟨"1", 24, (6, 8), 20, (0, 800)⟩) [] [⟨0, 1, 1⟩]
        = Except.error PyErr.zeroDivision := by
  exact ⟨rfl, rfl, rfl⟩

/-- C4, amended behaviour: no configuration validation exists — an invalid
configuration still yields the created two-road state, an assignment against
it raises `ZeroDivisionError` mid-run, a non-positive horizon merely produces
an empty arrival schedule, and a run over an empty schedule completes without
any error even with a zero capacity present. -/
theorem C4_amended_no_validation :
    (start_simulation_roads ⟨"1", -1, (8, 6), 20, (0, 800)⟩).length = 2
    ∧ ((start_simulation_roads ⟨"1", -1, (8, 6), 20, (0, 800)⟩).getD 0 dRoad).capacity = 0
    ∧ optimizeChecked (start_simulation_roads ⟨"1", -1, (8, 6), 20, (0, 800)⟩) [] [⟨0, 1, 1⟩]
        = Except.error PyErr.zeroDivision
    ∧ generate_random_traffic 0 (8, 6) 20 ⟨fun r _ => r, fun _ => 0, fun _ => 0⟩ = []
    ∧ runError (runTrace "1" [("Mandela", 0), ("Portmore", 800)] []) = none := by
  exact ⟨rfl, rfl, rfl, rfl, rfl⟩

/-- `checkRatios` succeeds on road lists with no zero capacity. -/
theorem checkRatios_ok {roads : List Road} (h : ∀ r ∈ roads, r.capacity ≠ 0) :
    checkRatios roads = Except.ok () := by
  simp only [checkRatios, List.all_eq_true, decide_eq_true_eq]
  rw [if_pos h]

/-- On capacity-nonzero road lists the checked Policy A agrees with the total
model and never reaches the division-error branch. -/
theorem optimizeChecked_ok (vs : List Vehicle) :
    ∀ (roads : List Road) (m : List (Nat × String)), (∀ r ∈ roads, r.capacity ≠ 0) →
      optimizeChecked roads m vs = Except.ok (vs.foldl optimizeStep (m, roads)) := by
  induction vs with
  | nil => intro roads m _; rfl
  | cons v vs ih =>
    intro roads m h
    have hcaps : ∀ r ∈ addLoad roads (bestRoadIdx roads) v.weight, r.capacity ≠ 0 := by
      intro r hr
      rcases capacity_mem_addLoad hr with ⟨b, hb, hc⟩
      rw [hc]
      exact h b hb
    simp only [optimizeChecked, checkRatios_ok h, List.foldl_cons]
    exact ih _ _ hcaps

/-- C10: with a non-empty road list all of whose capacities are nonzero, every
`current_load / capacity` both policies evaluate is defined and the call
returns an assignments mapping; a single zero-capacity road makes both raise
`ZeroDivisionError` instead. -/
theorem C10_division_guard :
    (∀ (roads : List Road) (vs : List Vehicle), roads ≠ [] →
        (∀ r ∈ roads, r.capacity ≠ 0) →
        optimizeChecked roads [] vs = Except.ok (optimize_traffic_flow roads vs)
        ∧ balanceChecked roads vs = Except.ok (balance_traffic_flow roads vs))
    ∧ optimizeChecked [⟨"Z", 0, 0, []⟩] [] [⟨0, 1, 1⟩] = Except.error PyErr.zeroDivision
    ∧ balanceChecked [⟨"Z", 0, 0, []⟩] [⟨0, 1, 1⟩] = Except.error PyErr.zeroDivision := by
  refine ⟨fun roads vs _ hcaps => ⟨optimizeChecked_ok vs roads [] hcaps, ?_⟩, rfl, rfl⟩
  simp [balanceChecked, checkRatios_ok hcaps]

theorem getD_append_left {α : Type} (l₁ l₂ : List α) (n : Nat) (d : α) (h : n < l₁.length) :
    (l₁ ++ l₂).getD n d = l₁.getD n d := by
  simp [List.getD_eq_getElem?_getD, List.getElem?_append_left h]

theorem getD_append_at {α : Type} (l₁ : List α) (a : α) (l₂ : List α) (d : α) :
    (l₁ ++ a :: l₂).getD l₁.length d = a := by
  simp [List.getD_eq_getElem?_getD, List.getElem?_append_right (Nat.le_refl l₁.length)]

/-- The scanning loop of Python's `min` keeps the first index achieving the
minimum: if the best-so-far is minimal over the prefix and strictly below
every entry before it, the final answer is the first global argmin. -/
theorem pickMin_spec (rest : List Road) :
    ∀ (pre : List Road) (bi : Nat) (br : Rat),
      bi < pre.length →
      ratio ((pre ++ rest).getD bi dRoad) = br →
      (∀ j, j < pre.length → br ≤ ratio ((pre ++ rest).getD j dRoad)) →
      (∀ j, j < bi → br < ratio ((pre ++ rest).getD j dRoad)) →
      IsFirstMin (pre ++ rest) (pickMin rest pre.length bi br) := by
  induction rest with
  | nil =>
    intro pre bi br hbi hbr hmin hstrict
    simp only [pickMin]
    refine ⟨by simpa using hbi, ?_, ?_⟩
    · intro j hj
      rw [hbr]
      exact hmin j (by simpa using hj)
    · intro j hj
      rw [hbr]
      exact hstrict j hj
  | cons r rest' ih =>
    intro pre bi br hbi hbr hmin hstrict
    have hassoc : pre ++ r :: rest' = (pre ++ [r]) ++ rest' := by simp
    have hlen : (pre ++ [r]).length = pre.length + 1 := by simp
    have hat : (pre ++ r :: rest').getD pre.length dRoad = r := getD_append_at pre r rest' dRoad
    show IsFirstMin (pre ++ r :: rest') (pickMin (r :: rest') pre.length bi br)
    simp only [pickMin]
    by_cases hlt : ratio r < br
    · rw [if_pos hlt, hassoc, ← hlen]
      apply ih (pre ++ [r]) pre.length (ratio r)
      · rw [hlen]
        omega
      · rw [← hassoc, hat]
      · intro j hj
        rw [← hassoc]
        rw [hlen] at hj
        rcases Nat.lt_succ_iff_lt_or_eq.mp hj with hj' | hj'
        · exact le_of_lt (lt_of_lt_of_le hlt (hmin j hj'))
        · subst hj'
          rw [hat]
      · intro j hj
        rw [← hassoc]
        exact lt_of_lt_of_le hlt (hmin j hj)
    · rw [if_neg hlt, hassoc, ← hlen]
      push_neg at hlt
      apply ih (pre ++ [r]) bi br
      · rw [hlen]
        omega
      · rw [← hassoc]
        exact hbr
      · intro j hj
        rw [← hassoc]
        rw [hlen] at hj
        rcases Nat.lt_succ_iff_lt_or_eq.mp hj with hj' | hj'
        · exact hmin j hj'
        · subst hj'
          rw [hat]
          exact hlt
      · intro j hj
        rw [← hassoc]
        exact hstrict j hj

/-- `min(roads, key=...)` returns the first road of minimal load ratio. -/
theorem bestRoadIdx_isFirstMin {roads : List Road} (h : roads ≠ []) :
    IsFirstMin roads (bestRoadIdx roads) := by
  cases roads with
  | nil => exact absurd rfl h
  | cons r rest =>
    have hspec := pickMin_spec rest [r] 0 (ratio r) (by simp) (by simp)
      (fun j hj => by
        have hj1 : j < 1 := by simpa using hj
        have hj0 : j = 0 := by omega
        simp [hj0])
      (fun j hj => absurd hj (Nat.not_lt_zero j))
    simpa [bestRoadIdx] using hspec

/-- C5: a Policy A call on a non-empty road list processes its batch head
first: it selects exactly the first road of minimal `current_load / capacity`
(`IsFirstMin`), records the assignment, and immediately commits the weight to
that road's `current_load` within the same call with no capacity check — as
witnessed by a capacity-1 road accepting a weight-3 vehicle, ending with
`current_load = 3 > 1 = capacity`. -/
theorem C5_policyA_greedy (roads : List Road) (v : Vehicle) (vs : List Vehicle)
    (m : List (Nat × String)) (hne : roads ≠ []) :
    IsFirstMin roads (bestRoadIdx roads)
    ∧ optimize_traffic_flow roads (v :: vs)
        = vs.foldl optimizeStep
            (dictInsert [] v.id ((roads.getD (bestRoadIdx roads) dRoad).name),
             addLoad roads (bestRoadIdx roads) v.weight)
    ∧ (v :: vs).foldl optimizeStep (m, roads)
        = vs.foldl optimizeStep
            (dictInsert m v.id ((roads.getD (bestRoadIdx roads) dRoad).name),
             addLoad roads (bestRoadIdx roads) v.weight)
    ∧ ((addLoad roads (bestRoadIdx roads) v.weight).getD (bestRoadIdx roads) dRoad).current_load
        = (roads.getD (bestRoadIdx roads) dRoad).current_load + v.weight
    ∧ ((optimize_traffic_flow [⟨"A", 1, 0, []⟩] [⟨0, 3, 1⟩]).2.getD 0 dRoad).current_load = 3
    ∧ ((optimize_traffic_flow [⟨"A", 1, 0, []⟩] [⟨0, 3, 1⟩]).2.getD 0 dRoad).capacity = 1 := by
  have hfm := bestRoadIdx_isFirstMin hne
  refine ⟨hfm, rfl, rfl, ?_, by decide, by decide⟩
  rw [addLoad, getD_updateAt_self roads (bestRoadIdx roads) _ dRoad hfm.1]

/-- Witness for C5 at a concrete two-road call. -/
theorem C5_policyA_greedy_witness :
    IsFirstMin [⟨"A", 10, 0, []⟩, ⟨"B", 10, 0, []⟩]
      (bestRoadIdx [⟨"A", 10, 0, []⟩, ⟨"B", 10, 0, []⟩]) :=
  (C5_policyA_greedy [⟨"A", 10, 0, []⟩, ⟨"B", 10, 0, []⟩] ⟨0, 5, 1⟩ [] [] (by decide)).1

/-- The Policy A loop body reads only a vehicle's `id` and `weight`. -/
theorem foldl_optimizeStep_idWeight :
    ∀ (vs vs' : List Vehicle), idWeight vs = idWeight vs' →
      ∀ acc : List (Nat × String) × List Road,
        vs.foldl optimizeStep acc = vs'.foldl optimizeStep acc := by
  intro vs
  induction vs with
  | nil =>
    intro vs' h acc
    cases vs' with
    | nil => rfl
    | cons b bs => simp [idWeight] at h
  | cons a as ih =>
    intro vs' h acc
    cases vs' with
    | nil => simp [idWeight] at h
    | cons b bs =>
      simp only [idWeight, List.map_cons, List.cons.injEq, Prod.mk.injEq] at h
      obtain ⟨⟨hid, hw⟩, htail⟩ := h
      simp only [List.foldl_cons]
      rw [show optimizeStep acc a = optimizeStep acc b by simp [optimizeStep, hid, hw]]
      exact ih bs htail _

/-- The Policy B loop body reads only a vehicle's `id` and `weight`. -/
theorem foldl_balanceStep_idWeight (order : List Nat) :
    ∀ (vs vs' : List Vehicle), idWeight vs = idWeight vs' →
      ∀ acc : List (Nat × String) × List Road,
        vs.foldl (balanceStep order) acc = vs'.foldl (balanceStep order) acc := by
  intro vs
  induction vs with
  | nil =>
    intro vs' h acc
    cases vs' with
    | nil => rfl
    | cons b bs => simp [idWeight] at h
  | cons a as ih =>
    intro vs' h acc
    cases vs' with
    | nil => simp [idWeight] at h
    | cons b bs =>
      simp only [idWeight, List.map_cons, List.cons.injEq, Prod.mk.injEq] at h
      obtain ⟨⟨hid, hw⟩, htail⟩ := h
      simp only [List.foldl_cons]
      rw [show balanceStep order acc a = balanceStep order acc b by
        simp [balanceStep, hid, hw]]
      exact ih bs htail _

/-- C9: neither policy consults priority — two calls whose vehicle batches
agree on ids and weights (and may differ arbitrarily in priorities) return
the same assignments mapping and the same mutated loads. -/
theorem C9_priority_irrelevant (roads : List Road) (vs vs' : List Vehicle)
    (h : idWeight vs = idWeight vs') :
    optimize_traffic_flow roads vs = optimize_traffic_flow roads vs'
    ∧ balance_traffic_flow roads vs = balance_traffic_flow roads vs' :=
  ⟨foldl_optimizeStep_idWeight vs vs' h ([], roads),
   foldl_balanceStep_idWeight (sortedIdx roads) vs vs' h ([], roads)⟩

/-- Witness for C9: same batch except for priorities 1 vs 5. -/
theorem C9_priority_irrelevant_witness :
    optimize_traffic_flow [⟨"A", 5, 0, []⟩] [⟨0, 2, 1⟩]
        = optimize_traffic_flow [⟨"A", 5, 0, []⟩] [⟨0, 2, 5⟩]
    ∧ balance_traffic_flow [⟨"A", 5, 0, []⟩] [⟨0, 2, 1⟩]
        = balance_traffic_flow [⟨"A", 5, 0, []⟩] [⟨0, 2, 5⟩] :=
  C9_priority_irrelevant [⟨"A", 5, 0, []⟩] [⟨0, 2, 1⟩] [⟨0, 2, 5⟩] (by decide)

theorem getD_append_right' {α : Type} (l₁ l₂ : List α) (n : Nat) (d : α)
    (h : l₁.length ≤ n) : (l₁ ++ l₂).getD n d = l₂.getD (n - l₁.length) d := by
  simp [List.getD_eq_getElem?_getD, List.getElem?_append_right h]

theorem getD_map_range {α : Type} (f : Nat → α) (n k : Nat) (d : α) (hk : k < n) :
    ((List.range n).map f).getD k d = f k := by
  rw [List.getD_eq_getElem?_getD, List.getElem?_map, List.getElem?_range hk]
  rfl

/-- `np.random.choice(l)` yields an element of `l`. -/
theorem pyChoice_mem (l : List Int) (hl : l ≠ []) (i : Nat) : pyChoice l i ∈ l := by
  have hlen : 0 < l.length := List.length_pos.mpr hl
  have hmod : i % l.length < l.length := Nat.mod_lt _ hlen
  simp only [pyChoice, List.getD_eq_getElem?_getD, List.getElem?_eq_getElem hmod,
    Option.getD_some]
  exact List.getElem_mem hmod

/-- An hour batch draws its size from the Poisson oracle at the
peak-dependent rate. -/
theorem genHour_length (rate : Nat) (peak : Rat × Rat) (rs : RandomStream) (h c : Nat) :
    (genHour rate peak rs h c).length
      = rs.poisson (if peak.1 ≤ (h : Rat) ∧ (h : Rat) ≤ peak.2 then rate else rate / 2) h := by
  simp [genHour]

/-- Vehicles of an hour batch carry sequential ids from the running counter. -/
theorem genHour_getD_id (rate : Nat) (peak : Rat × Rat) (rs : RandomStream) (h c k : Nat)
    (hk : k < (genHour rate peak rs h c).length) :
    ((genHour rate peak rs h c).getD k default).id = c + k := by
  have hk' : k < rs.poisson (if peak.1 ≤ (h : Rat) ∧ (h : Rat) ≤ peak.2 then rate else rate / 2) h := by
    simpa [genHour] using hk
  simp only [genHour]
  rw [getD_map_range _ _ _ _ hk']

/-- Vehicles of an hour batch have weights in `{1,2,3}` and priorities in
`{1,2,3,4,5}`. -/
theorem genHour_mem_draws (rate : Nat) (peak : Rat × Rat) (rs : RandomStream) (h c : Nat)
    {v : Vehicle} (hv : v ∈ genHour rate peak rs h c) :
    v.weight ∈ ([1, 2, 3] : List Int) ∧ v.priority ∈ ([1, 2, 3, 4, 5] : List Int) := by
  simp only [genHour, List.mem_map, List.mem_range] at hv
  obtain ⟨k, _, hk⟩ := hv
  constructor
  · rw [← hk]
    exact pyChoice_mem [1, 2, 3] (by decide) _
  · rw [← hk]
    exact pyChoice_mem [1, 2, 3, 4, 5] (by decide) _

/-- The hour loop puts at position `hIdx` the batch generated for hour
`h0 + hIdx` (at some value of the vehicle counter). -/
theorem genAux_getD (peak : Rat × Rat) (rate : Nat) (rs : RandomStream) :
    ∀ (n h0 c hIdx : Nat), hIdx < n →
      ∃ c', (genAux peak rate rs n h0 c).getD hIdx [] = genHour rate peak rs (h0 + hIdx) c' := by
  intro n
  induction n with
  | zero => intro h0 c hIdx hlt; omega
  | succ m ih =>
    intro h0 c hIdx hlt
    cases hIdx with
    | zero => exact ⟨c, by simp [genAux]⟩
    | succ k =>
      obtain ⟨c', hc⟩ := ih (h0 + 1) (c + (genHour rate peak rs h0 c).length) k (by omega)
      refine ⟨c', ?_⟩
      have harith : h0 + (k + 1) = (h0 + 1) + k := by omega
      rw [harith]
      simpa [genAux] using hc

/-- Concatenating the hour batches yields vehicles with ids sequential from
the initial counter. -/
theorem genAux_join_ids (peak : Rat × Rat) (rate : Nat) (rs : RandomStream) :
    ∀ (n h0 c k : Nat), k < (genAux peak rate rs n h0 c).flatten.length →
      ((genAux peak rate rs n h0 c).flatten.getD k default).id = c + k := by
  intro n
  induction n with
  | zero => intro h0 c k hk; simp [genAux] at hk
  | succ m ih =>
    intro h0 c k hk
    have hj : (genAux peak rate rs (m + 1) h0 c).flatten
        = genHour rate peak rs h0 c
          ++ (genAux peak rate rs m (h0 + 1) (c + (genHour rate peak rs h0 c).length)).flatten := by
      simp [genAux]
    rw [hj] at hk ⊢
    by_cases hkb : k < (genHour rate peak rs h0 c).length
    · rw [getD_append_left _ _ _ _ hkb]
      exact genHour_getD_id rate peak rs h0 c k hkb
    · push_neg at hkb
      rw [getD_append_right' _ _ _ _ hkb]
      have hk2 : k - (genHour rate peak rs h0 c).length
          < (genAux peak rate rs m (h0 + 1) (c + (genHour rate peak rs h0 c).length)).flatten.length := by
        rw [List.length_append] at hk
        omega
      rw [ih (h0 + 1) (c + (genHour rate peak rs h0 c).length) _ hk2]
      omega

/-- C8: for every hour `h < H` the generator treats `h` as peak exactly when
`peakStart ≤ h ≤ peakEnd`, draws the hour's batch size from the Poisson
oracle at rate `r` (peak) or `⌊r/2⌋` (off-peak), gives every generated
vehicle a weight from `{1,2,3}` and a priority from `{1,2,3,4,5}`, and
assigns ids sequentially across the whole run in generation order. -/
theorem C8_generator (tw : Nat) (peak : Rat × Rat) (rate : Nat) (rs : RandomStream)
    (h : Nat) (hh : h < tw) :
    ((generate_random_traffic tw peak rate rs).getD h []).length
        = rs.poisson (if peak.1 ≤ (h : Rat) ∧ (h : Rat) ≤ peak.2 then rate else rate / 2) h
    ∧ (∀ v ∈ (generate_random_traffic tw peak rate rs).getD h [],
        v.weight ∈ ([1, 2, 3] : List Int) ∧ v.priority ∈ ([1, 2, 3, 4, 5] : List Int))
    ∧ ∀ k, k < (generate_random_traffic tw peak rate rs).flatten.length →
        ((generate_random_traffic tw peak rate rs).flatten.getD k default).id = k := by
  obtain ⟨c', hc⟩ := genAux_getD peak rate rs tw 0 0 h hh
  rw [show (0 : Nat) + h = h from by omega] at hc
  refine ⟨?_, ?_, ?_⟩
  · rw [generate_random_traffic, hc, genHour_length]
  · intro v hv
    rw [generate_random_traffic, hc] at hv
    exact genHour_mem_draws rate peak rs h c' hv
  · intro k hk
    have := genAux_join_ids peak rate rs tw 0 0 k (by simpa [generate_random_traffic] using hk)
    simpa [generate_random_traffic] using this

/-- Witness for C8: horizon 2, peak window `(0,0)`, base rate 4 and an oracle
returning its rate argument; hour 1 is off-peak so its batch has
`⌊4/2⌋ = 2` vehicles. -/
theorem C8_generator_witness :
    ((generate_random_traffic 2 (0, 0) 4 ⟨fun r _ => r, fun _ => 0, fun _ => 1⟩).getD 1 []).length
      = 2 := by
  have h := (C8_generator 2 (0, 0) 4 ⟨fun r _ => r, fun _ => 0, fun _ => 1⟩ 1 (by decide)).1
  rw [h]
  norm_num

/-- Witness for C10 at a concrete capacity-nonzero call. -/
theorem C10_division_guard_witness :
    optimizeChecked [⟨"A", 10, 0, []⟩] [] [⟨0, 2, 1⟩]
        = Except.ok (optimize_traffic_flow [⟨"A", 10, 0, []⟩] [⟨0, 2, 1⟩])
    ∧ balanceChecked [⟨"A", 10, 0, []⟩] [⟨0, 2, 1⟩]
        = Except.ok (balance_traffic_flow [⟨"A", 10, 0, []⟩] [⟨0, 2, 1⟩]) :=
  C10_division_guard.1 [⟨"A", 10, 0, []⟩] [⟨0, 2, 1⟩] (by decide) (by decide)

theorem sameShape_refl (roads : List Road) : sameShape roads roads :=
  ⟨rfl, fun _ => ⟨rfl, rfl, rfl⟩⟩

theorem sameShape_trans {a b c : List Road} (h1 : sameShape a b) (h2 : sameShape b c) :
    sameShape a c := by
  refine ⟨h2.1.trans h1.1, fun i => ?_⟩
  obtain ⟨n1, c1, hh1⟩ := h1.2 i
  obtain ⟨n2, c2, hh2⟩ := h2.2 i
  exact ⟨n2.trans n1, c2.trans c1, hh2.trans hh1⟩

theorem sameShape_addLoad (roads : List Road) (t : Nat) (w : Int) :
    sameShape roads (addLoad roads t w) := by
  refine ⟨updateAt_length roads t _, fun i => ?_⟩
  by_cases ht : t < roads.length
  · by_cases hit : i = t
    · subst hit
      rw [addLoad, getD_updateAt_self roads i _ dRoad ht]
      exact ⟨rfl, rfl, rfl⟩
    · rw [addLoad, getD_updateAt_ne roads t i _ dRoad hit]
      exact ⟨rfl, rfl, rfl⟩
  · rw [addLoad, updateAt_out roads t _ (by omega)]
    exact ⟨rfl, rfl, rfl⟩

theorem foldl_optimizeStep_sameShape (vs : List Vehicle) :
    ∀ acc : List (Nat × String) × List Road, sameShape acc.2 ((vs.foldl optimizeStep acc).2) := by
  induction vs with
  | nil => intro acc; exact sameShape_refl _
  | cons v vs ih =>
    intro acc
    exact sameShape_trans (sameShape_addLoad acc.2 (bestRoadIdx acc.2) v.weight) (ih _)

theorem balanceStep_sameShape (order : List Nat) (acc : List (Nat × String) × List Road)
    (v : Vehicle) : sameShape acc.2 ((balanceStep order acc v).2) := by
  cases hff : firstFit acc.2 order v.weight with
  | none =>
    simp only [balanceStep, hff]
    exact sameShape_refl _
  | some i =>
    simp only [balanceStep, hff]
    exact sameShape_addLoad _ _ _

theorem foldl_balanceStep_sameShape (order : List Nat) (vs : List Vehicle) :
    ∀ acc : List (Nat × String) × List Road,
      sameShape acc.2 ((vs.foldl (balanceStep order) acc).2) := by
  induction vs with
  | nil => intro acc; exact sameShape_refl _
  | cons v vs ih =>
    intro acc
    exact sameShape_trans (balanceStep_sameShape order acc v) (ih _)

theorem applyPolicy_sameShape (method : String) (roads : List Road) (vs : List Vehicle) :
    sameShape roads ((applyPolicy method roads vs).2) := by
  rw [applyPolicy]
  by_cases hm : method = "1"
  · rw [if_pos hm]
    exact foldl_optimizeStep_sameShape vs ([], roads)
  · rw [if_neg hm]
    exact foldl_balanceStep_sameShape (sortedIdx roads) vs ([], roads)

theorem findRoadIdx_lt {roads : List Road} {nm : String} {j : Nat}
    (h : findRoadIdx roads nm = some j) : j < roads.length := by
  induction roads generalizing j with
  | nil => simp [findRoadIdx] at h
  | cons r rest ih =>
    rw [findRoadIdx] at h
    by_cases hn : r.name = nm
    · rw [if_pos hn] at h
      injection h with h
      simp only [List.length_cons]
      omega
    · rw [if_neg hn] at h
      cases hr : findRoadIdx rest nm with
      | none => rw [hr] at h; simp at h
      | some j' =>
        rw [hr] at h
        simp only [Option.map_some'] at h
        injection h with h
        have := ih hr
        simp only [List.length_cons]
        omega

/-- `vehicle_process` always finds a road carrying the looked-up name when one
exists at a valid index. -/
theorem findRoadIdx_isSome_of_name :
    ∀ (roads : List Road) (j : Nat), j < roads.length →
      (findRoadIdx roads ((roads.getD j dRoad).name)).isSome := by
  intro roads
  induction roads with
  | nil => intro j hj; simp at hj
  | cons r rest ih =>
    intro j hj
    rw [findRoadIdx]
    by_cases hr : r.name = (((r :: rest).getD j dRoad).name)
    · rw [if_pos hr]
      rfl
    · rw [if_neg hr]
      cases j with
      | zero => exact absurd rfl hr
      | succ m =>
        have hm : m < rest.length := by simpa using hj
        have := ih m hm
        have hgd : ((r :: rest).getD (m + 1) dRoad) = rest.getD m dRoad := rfl
        rw [hgd]
        simpa using ih m hm

/-- A successful `vehicle_process` start preserves the road shapes and
returns a valid road index. -/
theorem vehicle_process_start_spec {method : String} {roads : List Road} {v : Vehicle}
    {roads' : List Road} {j : Nat}
    (h : vehicle_process_start method roads v = Except.ok (roads', j)) :
    sameShape roads roads' ∧ j < roads.length := by
  rw [vehicle_process_start] at h
  split at h
  · exact Except.noConfusion h
  · split at h
    · exact Except.noConfusion h
    · rename_i nm hdl j' hfi
      injection h with h2
      simp only [Prod.mk.injEq] at h2
      obtain ⟨hroads, hj⟩ := h2
      subst hj
      subst hroads
      have hpr := applyPolicy_sameShape method roads [v]
      refine ⟨sameShape_trans hpr (sameShape_addLoad _ _ _), ?_⟩
      have hlt := findRoadIdx_lt hfi
      rw [hpr.1] at hlt
      exact hlt

/-- One release grows exactly the assigned road's history by one entry. -/
theorem releaseOne_hist (roads : List Road) (p : Nat × Int) (i : Nat) (hi : i < roads.length) :
    ((releaseOne roads p).getD i dRoad).history.length
      = (roads.getD i dRoad).history.length + (if p.1 = i then 1 else 0) := by
  by_cases hpi : p.1 = i
  · subst hpi
    rw [releaseOne, getD_updateAt_self roads p.1 _ dRoad hi]
    simp
  · rw [releaseOne, getD_updateAt_ne roads p.1 i _ dRoad (fun hh => hpi hh.symm)]
    simp [hpi]

theorem bump_getD (c : List Nat) (t i : Nat) (hi : i < c.length) :
    (bump c t).getD i 0 = c.getD i 0 + (if t = i then 1 else 0) := by
  by_cases hti : t = i
  · subst hti
    rw [bump, getD_updateAt_self c t _ 0 hi]
    simp
  · rw [bump, getD_updateAt_ne c t i _ 0 (fun hh => hti hh.symm)]
    simp [hti]

/-- Folding the due releases keeps histories and completion counts in
lock-step, each growing by the per-road multiplicity of the pending list. -/
theorem releaseFold_spec :
    ∀ (pend : List (Nat × Int)) (roads : List Road) (comp : List Nat),
      comp.length = roads.length →
      (∀ i, i < roads.length → (roads.getD i dRoad).history.length = comp.getD i 0) →
      (pend.foldl releaseStep (roads, comp)).1.length = roads.length
      ∧ (pend.foldl releaseStep (roads, comp)).2.length = comp.length
      ∧ ∀ i, i < roads.length →
          ((pend.foldl releaseStep (roads, comp)).1.getD i dRoad).history.length
              = (pend.foldl releaseStep (roads, comp)).2.getD i 0
          ∧ (pend.foldl releaseStep (roads, comp)).2.getD i 0
              = comp.getD i 0 + pend.countP (fun p => decide (p.1 = i)) := by
  intro pend
  induction pend with
  | nil =>
    intro roads comp _ hhc
    exact ⟨rfl, rfl, fun i hi => ⟨hhc i hi, by simp⟩⟩
  | cons p ps ih =>
    intro roads comp hlen hhc
    have hlenR : (releaseOne roads p).length = roads.length := by
      rw [releaseOne, updateAt_length]
    have hlenB : (bump comp p.1).length = comp.length := by
      rw [bump, updateAt_length]
    have hlen1 : (bump comp p.1).length = (releaseOne roads p).length := by
      rw [hlenB, hlenR, hlen]
    have hhc' : ∀ i, i < (releaseOne roads p).length →
        ((releaseOne roads p).getD i dRoad).history.length = (bump comp p.1).getD i 0 := by
      intro i hi
      rw [hlenR] at hi
      rw [releaseOne_hist roads p i hi, bump_getD comp p.1 i (by omega), hhc i hi]
    obtain ⟨h1, h2, h3⟩ := ih (releaseOne roads p) (bump comp p.1) hlen1 hhc'
    simp only [List.foldl_cons, releaseStep]
    refine ⟨by rw [h1, hlenR], by rw [h2, hlenB], fun i hi => ?_⟩
    have hi' : i < (releaseOne roads p).length := by rw [hlenR]; exact hi
    obtain ⟨ha, hb⟩ := h3 i hi'
    refine ⟨ha, ?_⟩
    rw [hb, bump_getD comp p.1 i (by omega)]
    simp only [List.countP_cons]
    by_cases hpi : p.1 = i
    · rw [decide_eq_true hpi, if_pos rfl, if_pos hpi]
      omega
    · rw [decide_eq_false hpi, if_neg Bool.false_ne_true, if_neg hpi]
      omega

/-- The release fold never changes the number of roads. -/
theorem releaseFold_length :
    ∀ (pend : List (Nat × Int)) (roads : List Road) (comp : List Nat),
      (pend.foldl releaseStep (roads, comp)).1.length = roads.length := by
  intro pend
  induction pend with
  | nil => intro roads comp; rfl
  | cons p ps ih =>
    intro roads comp
    simp only [List.foldl_cons, releaseStep]
    rw [ih (releaseOne roads p) (bump comp p.1), releaseOne, updateAt_length]

/-- Resuming all due holds preserves the bookkeeping invariant and empties
the pending queue. -/
theorem doReleases_inv {st : SimState} (h : SimInv st) : SimInv (doReleases st) := by
  obtain ⟨ha, hc, hinv⟩ := h
  obtain ⟨h1, h2, h3⟩ :=
    releaseFold_spec st.pending st.roads st.completed hc (fun i hi => (hinv i hi).1)
  refine ⟨?_, ?_, ?_⟩
  · show st.assigned.length = (st.pending.foldl releaseStep (st.roads, st.completed)).1.length
    rw [h1, ha]
  · show (st.pending.foldl releaseStep (st.roads, st.completed)).2.length
        = (st.pending.foldl releaseStep (st.roads, st.completed)).1.length
    rw [h1, h2, hc]
  · intro i hi
    have hi' : i < st.roads.length := by
      rw [show (doReleases st).roads
          = (st.pending.foldl releaseStep (st.roads, st.completed)).1 from rfl, h1] at hi
      exact hi
    obtain ⟨hh, hcp⟩ := h3 i hi'
    refine ⟨hh, ?_⟩
    show (st.pending.foldl releaseStep (st.roads, st.completed)).2.getD i 0
        + List.countP (fun p : Nat × Int => decide (p.1 = i)) ([] : List (Nat × Int))
        = st.assigned.getD i 0
    rw [List.countP_nil, Nat.add_zero, hcp]
    exact (hinv i hi').2

/-- Starting one vehicle process preserves the bookkeeping invariant: the new
hold is recorded in `pending` and in the per-road assignment count. -/
theorem assign_inv {method : String} {st : SimState} {v : Vehicle} {rj : List Road × Nat}
    (hvp : vehicle_process_start method st.roads v = Except.ok rj)
    (hinv : SimInv st) :
    SimInv ⟨rj.1, st.pending ++ [(rj.2, v.weight)], bump st.assigned rj.2, st.completed⟩ := by
  obtain ⟨hshape, hjlt⟩ := vehicle_process_start_spec (show _ = Except.ok (rj.1, rj.2) from hvp)
  obtain ⟨ha, hc, hinv3⟩ := hinv
  have hlen : rj.1.length = st.roads.length := hshape.1
  refine ⟨?_, ?_, ?_⟩
  · show (bump st.assigned rj.2).length = rj.1.length
    rw [bump, updateAt_length, ha, hlen]
  · show st.completed.length = rj.1.length
    rw [hc, hlen]
  · intro i hi
    have hi' : i < st.roads.length := by
      rw [show (⟨rj.1, st.pending ++ [(rj.2, v.weight)], bump st.assigned rj.2,
          st.completed⟩ : SimState).roads = rj.1 from rfl, hlen] at hi
      exact hi
    obtain ⟨hname, hcap, hhist⟩ := hshape.2 i
    obtain ⟨hh, hsum⟩ := hinv3 i hi'
    refine ⟨?_, ?_⟩
    · show (rj.1.getD i dRoad).history.length = st.completed.getD i 0
      rw [hhist]
      exact hh
    · show st.completed.getD i 0
          + (st.pending ++ [(rj.2, v.weight)]).countP (fun p => decide (p.1 = i))
          = (bump st.assigned rj.2).getD i 0
      rw [List.countP_append, bump_getD st.assigned rj.2 i (by rw [ha]; exact hi')]
      simp only [List.countP_cons, List.countP_nil]
      by_cases hji : rj.2 = i
      · rw [decide_eq_true hji, if_pos rfl, if_pos hji]
        omega
      · rw [decide_eq_false hji, if_neg Bool.false_ne_true, if_neg hji]
        omega

/-- Spawning a tick's arrivals preserves the bookkeeping invariant. -/
theorem doAssigns_inv (method : String) :
    ∀ (vs : List Vehicle) (st st' : SimState),
      doAssigns method st vs = Except.ok st' → SimInv st → SimInv st' := by
  intro vs
  induction vs with
  | nil =>
    intro st st' h hinv
    injection (show Except.ok st = Except.ok st' from h) with h2
    rw [← h2]
    exact hinv
  | cons v vs ih =>
    intro st st' h hinv
    rw [doAssigns] at h
    split at h
    · exact Except.noConfusion h
    · rename_i rj hvp
      exact ih _ st' h (assign_inv hvp hinv)

/-- Every recorded state of a successful run satisfies the bookkeeping
invariant, and the last recorded state has no in-flight hold left. -/
theorem runTraceAux_inv (method : String) :
    ∀ (arrs : List (List Vehicle)) (st : SimState) (tr : List SimState),
      runTraceAux method st arrs = Except.ok tr → SimInv st →
      tr ≠ [] ∧ (∀ s ∈ tr, SimInv s) ∧ ∀ s, tr.getLast? = some s → s.pending = [] := by
  intro arrs
  induction arrs with
  | nil =>
    intro st tr h hinv
    have htr : [doReleases st] = tr := by
      injection (show Except.ok [doReleases st] = Except.ok tr from h) with h2
    rw [← htr]
    refine ⟨by simp, ?_, ?_⟩
    · intro s hs
      rw [List.mem_singleton] at hs
      rw [hs]
      exact doReleases_inv hinv
    · intro s hs
      simp only [List.getLast?_singleton, Option.some.injEq] at hs
      rw [← hs]
      rfl
  | cons b rest ih =>
    intro st tr h hinv
    simp only [runTraceAux] at h
    split at h
    · exact Except.noConfusion h
    · rename_i st2 hda
      split at h
      · exact Except.noConfusion h
      · rename_i tr' hrt
        have htr : doReleases st :: st2 :: tr' = tr := by
          injection (show Except.ok (doReleases st :: st2 :: tr') = Except.ok tr from h) with h2
        rw [← htr]
        have hinv1 := doReleases_inv hinv
        have hinv2 := doAssigns_inv method b (doReleases st) st2 hda hinv1
        obtain ⟨hne', hall, hlast⟩ := ih st2 tr' hrt hinv2
        refine ⟨by simp, ?_, ?_⟩
        · intro s hs
          rcases List.mem_cons.mp hs with h1 | hs2
          · rw [h1]
            exact hinv1
          · rcases List.mem_cons.mp hs2 with h2 | hs3
            · rw [h2]
              exact hinv2
            · exact hall s hs3
        · intro s hs
          rw [List.getLast?_cons_cons] at hs
          cases htr' : tr' with
          | nil => exact absurd htr' hne'
          | cons t ts =>
            rw [htr', List.getLast?_cons_cons] at hs
            refine hlast s ?_
            rw [htr']
            exact hs

/-- The freshly created simulation state satisfies the invariant. -/
theorem initState_inv (defs : List (String × Int)) : SimInv (initState defs) := by
  refine ⟨by simp [initState], by simp [initState], ?_⟩
  intro i hi
  simp only [initState, List.length_map] at hi
  constructor
  · simp only [initState]
    rw [List.getD_eq_getElem?_getD, List.getElem?_map, List.getElem?_eq_getElem hi,
      List.getD_eq_getElem?_getD, List.getElem?_replicate_of_lt hi]
    rfl
  · simp only [initState, List.countP_nil, Nat.add_zero]

/-- Under Policy A, starting a vehicle process on a non-empty road list never
raises: `optimize_traffic_flow` always records an assignment, and the
assigned road's name is always found. -/
theorem vehicle_process_start_A_ok (roads : List Road) (v : Vehicle) (hne : roads ≠ []) :
    ∃ rj, vehicle_process_start "1" roads v = Except.ok rj := by
  have hi : bestRoadIdx roads < roads.length := (bestRoadIdx_isFirstMin hne).1
  have hdl : dictLookup (applyPolicy "1" roads [v]).1 v.id
      = some ((roads.getD (bestRoadIdx roads) dRoad).name) := by
    show dictLookup (dictInsert [] v.id ((roads.getD (bestRoadIdx roads) dRoad).name)) v.id
        = some ((roads.getD (bestRoadIdx roads) dRoad).name)
    simp [dictInsert, dictLookup]
  have hname : ((addLoad roads (bestRoadIdx roads) v.weight).getD (bestRoadIdx roads) dRoad).name
      = (roads.getD (bestRoadIdx roads) dRoad).name :=
    ((sameShape_addLoad roads (bestRoadIdx roads) v.weight).2 (bestRoadIdx roads)).1
  have hlen : (addLoad roads (bestRoadIdx roads) v.weight).length = roads.length :=
    (sameShape_addLoad roads (bestRoadIdx roads) v.weight).1
  have hfs : (findRoadIdx (addLoad roads (bestRoadIdx roads) v.weight)
      ((roads.getD (bestRoadIdx roads) dRoad).name)).isSome := by
    have hmem := findRoadIdx_isSome_of_name (addLoad roads (bestRoadIdx roads) v.weight)
      (bestRoadIdx roads) (by rw [hlen]; exact hi)
    rwa [hname] at hmem
  obtain ⟨j, hj⟩ := Option.isSome_iff_exists.mp hfs
  have hj' : findRoadIdx (applyPolicy "1" roads [v]).2
      ((roads.getD (bestRoadIdx roads) dRoad).name) = some j := hj
  refine ⟨(addLoad (applyPolicy "1" roads [v]).2 j v.weight, j), ?_⟩
  simp only [vehicle_process_start, hdl, hj']

/-- Under Policy A, a whole assignment phase on a non-empty road list
succeeds and keeps the road count. -/
theorem doAssigns_A_ok (vs : List Vehicle) :
    ∀ st : SimState, st.roads ≠ [] →
      ∃ st', doAssigns "1" st vs = Except.ok st'
        ∧ st'.roads.length = st.roads.length := by
  induction vs with
  | nil => intro st _; exact ⟨st, rfl, rfl⟩
  | cons v vs ih =>
    intro st h
    obtain ⟨rj, hrj⟩ := vehicle_process_start_A_ok st.roads v h
    have hs := vehicle_process_start_spec (show _ = Except.ok (rj.1, rj.2) from hrj)
    have hlen : rj.1.length = st.roads.length := hs.1.1
    have hne2 : rj.1 ≠ [] := by
      intro hnil
      rw [hnil] at hlen
      exact h (List.length_eq_zero.mp hlen.symm)
    obtain ⟨st', hst', hlen'⟩ :=
      ih ⟨rj.1, st.pending ++ [(rj.2, v.weight)], bump st.assigned rj.2, st.completed⟩ hne2
    refine ⟨st', ?_, ?_⟩
    · rw [doAssigns, hrj]
      exact hst'
    · rw [hlen']
      exact hlen

/-- Under Policy A on a non-empty road list, the whole run succeeds. -/
theorem runTraceAux_A_ok :
    ∀ (arrs : List (List Vehicle)) (st : SimState), st.roads ≠ [] →
      ∃ tr, runTraceAux "1" st arrs = Except.ok tr := by
  intro arrs
  induction arrs with
  | nil => intro st _; exact ⟨[doReleases st], rfl⟩
  | cons b rest ih =>
    intro st h
    have hrel : (doReleases st).roads.length = st.roads.length :=
      releaseFold_length st.pending st.roads st.completed
    have hne1 : (doReleases st).roads ≠ [] := by
      intro hnil
      rw [hnil] at hrel
      exact h (List.length_eq_zero.mp hrel.symm)
    obtain ⟨st2, hst2, hlen2⟩ := doAssigns_A_ok b (doReleases st) hne1
    have hne2 : st2.roads ≠ [] := by
      intro hnil
      rw [hnil] at hlen2
      exact hne1 (List.length_eq_zero.mp hlen2.symm)
    obtain ⟨tr, htr⟩ := ih st2 hne2
    refine ⟨doReleases st :: st2 :: tr, ?_⟩
    simp only [runTraceAux, hst2, htr]

/-- C7: in every state a run ever records, each road's history length equals
the number of vehicle processes fully completed (hold + release) against it,
and is at most the number of vehicles ever assigned to it; in the final state
of a successful run the two are equal, and under Policy A (which never drops
a vehicle) the run on a non-empty road list always completes successfully. -/
theorem C7_history_bookkeeping (method : String) (defs : List (String × Int))
    (arrivals : List (List Vehicle)) (hne : defs ≠ []) :
    (∀ tr, runTrace method defs arrivals = Except.ok tr →
      (∀ st ∈ tr, ∀ i, i < st.roads.length →
          (st.roads.getD i dRoad).history.length = st.completed.getD i 0
          ∧ st.completed.getD i 0 ≤ st.assigned.getD i 0)
      ∧ ∀ st, tr.getLast? = some st → ∀ i, i < st.roads.length →
          (st.roads.getD i dRoad).history.length = st.assigned.getD i 0)
    ∧ ∃ tr, runTrace "1" defs arrivals = Except.ok tr := by
  constructor
  · intro tr htr
    obtain ⟨hne', hall, hlast⟩ :=
      runTraceAux_inv method arrivals (initState defs) tr htr (initState_inv defs)
    constructor
    · intro st hst i hi
      obtain ⟨hlen1, hlen2, hinv⟩ := hall st hst
      obtain ⟨hh, hsum⟩ := hinv i hi
      exact ⟨hh, by omega⟩
    · intro st hst i hi
      have hmem := List.mem_of_getLast?_eq_some hst
      obtain ⟨hlen1, hlen2, hinv⟩ := hall st hmem
      obtain ⟨hh, hsum⟩ := hinv i hi
      have hpend := hlast st hst
      rw [hpend] at hsum
      simp only [List.countP_nil, Nat.add_zero] at hsum
      rw [hh]
      exact hsum
  · refine runTraceAux_A_ok arrivals (initState defs) ?_
    intro hnil
    have hlen := congrArg List.length hnil
    simp only [initState, List.length_map, List.length_nil] at hlen
    exact hne (List.length_eq_zero.mp hlen)

/-- Witness for C7 at a concrete one-road Policy-A run. -/
theorem C7_history_bookkeeping_witness :
    ∃ tr, runTrace "1" [("A", 5)] [[⟨0, 2, 1⟩]] = Except.ok tr :=
  (C7_history_bookkeeping "1" [("A", 5)] [[⟨0, 2, 1⟩]] (by decide)).2

end TrafficSim

